import Mathlib

/-!
Shallow embedding of the cocoon validation engine: the built-in validator set
(`IsEmpty`, `IsNotEmpty`, `IsMin`, `IsMax`, `IsLowerCase`, `IsUpperCase`,
`IsNumeric`) and the reflective utilities (`GetStructFields`, `FullName`,
`CallDynamicMethod`), together with theorems settling the specification
claims about them.
-/

set_option autoImplicit false

namespace Cocoon

/-- A runtime value handed to a validator (Go `interface{}` after
normalization): a string, an `int64`, a `float64` (modelled exactly as a
rational, which is faithful on every comparison the claims exercise), or a
value of some other runtime type, identified by its type name
(`none` models a nil interface, whose `reflect.TypeOf` is nil). -/
inductive GoValue where
  | str (s : String)
  | i64 (n : Int)
  | f64 (q : ℚ)
  | other (typeName : Option String)
  deriving DecidableEq, Repr

/-- `reflect.TypeOf` on the modelled values: the concrete runtime type name,
or `none` for a nil interface value. -/
def goTypeOf : GoValue → Option String
  | .str _ => some "string"
  | .i64 _ => some "int64"
  | .f64 _ => some "float64"
  | .other t => t

/-- Go `len` on a string is its UTF-8 byte length. -/
def goLen (s : String) : Nat := s.utf8ByteSize

/-- `UnsupportedTypeError` struct: the offending value's runtime type and the
message text. -/
structure UnsupportedTypeError where
  type : Option String
  message : String
  deriving DecidableEq, Repr

/-- `NewUnsupportedTypeError(validatorName, value)`: stores
`reflect.TypeOf(value)` and a message naming the validator. -/
def NewUnsupportedTypeError (validatorName : String) (value : GoValue) :
    UnsupportedTypeError where
  type := goTypeOf value
  message := "Validator with name '" ++ validatorName ++
    "' on struct '{struct}' and field '{field}' is not supported."

/-- An error returned by a validator: either a plain `errors.New` message or
an `*UnsupportedTypeError`. -/
inductive GoError where
  | generic (msg : String)
  | unsupportedType (e : UnsupportedTypeError)
  deriving DecidableEq, Repr

/-- `ValidatorContext`: the candidate value, the nil flag, and the mutable
stop flag. -/
structure ValidatorContext where
  Value : GoValue
  IsNil : Bool
  StopValidate : Bool
  deriving DecidableEq, Repr

/-! ### Integer parsing (`strconv.Atoi`, `strconv.ParseInt`)

Base-10 syntax: an optional `+`/`-` sign followed by one or more decimal
digits; anything else (including the empty string) is a syntax error.  A
value outside the requested bit-size range is a range error; since every
caller in the source only distinguishes `err == nil`, both error kinds are
modelled as `none`. -/

/-- The value of a run of decimal digits, or `none` if the run is empty or
contains a non-digit. -/
def decDigits : List Char → Option Nat
  | [] => none
  | cs =>
    if cs.all Char.isDigit then
      some (cs.foldl (fun a c => a * 10 + (c.toNat - 48)) 0)
    else none

/-- Optional sign followed by decimal digits. -/
def parseSigned (s : String) : Option Int :=
  match s.toList with
  | '+' :: rest => (decDigits rest).map fun n => (n : Int)
  | '-' :: rest => (decDigits rest).map fun n => -(n : Int)
  | cs => (decDigits cs).map fun n => (n : Int)

/-- `strconv.ParseInt(s, 10, 64)` viewed through `err == nil`:
the parsed value when syntax and the signed-64-bit range check succeed. -/
def goAtoi (s : String) : Option Int :=
  match parseSigned s with
  | none => none
  | some v => if -(2 ^ 63) ≤ v ∧ v ≤ 2 ^ 63 - 1 then some v else none

/-- `strconv.ParseInt(s, 10, 32)` viewed through `err == nil`:
the parsed value when syntax and the signed-32-bit range check succeed. -/
def parseInt32 (s : String) : Option Int :=
  match parseSigned s with
  | none => none
  | some v => if -(2 ^ 31) ≤ v ∧ v ≤ 2 ^ 31 - 1 then some v else none

/-! ### The built-in validator set

Each validator takes the context and the option list and returns the error
(`none` for success) together with the context as it stands after the call;
the source mutates the context in place, so the returned context records the
writes to `Value` (numeric coercion) and `StopValidate`. -/

/-- `IsEmpty`: validator `empty`. -/
def IsEmpty (context : ValidatorContext) (options : List String) :
    Option GoError × ValidatorContext :=
  if options.length > 0 then
    (some (.generic "Validator 'empty' does not support any arguments."), context)
  else
    match context.Value with
    | .str s =>
      if context.IsNil ∨ goLen s = 0 then
        (none, { context with StopValidate := true })
      else (none, context)
    | .i64 n =>
      if context.IsNil ∨ n = 0 then
        (none, { context with StopValidate := true })
      else (none, context)
    | _ =>
      if context.IsNil then (none, { context with StopValidate := true })
      else
        (some (.unsupportedType (NewUnsupportedTypeError "empty" context.Value)),
          context)

/-- `IsNotEmpty`: validator `not_empty`. -/
def IsNotEmpty (context : ValidatorContext) (options : List String) :
    Option GoError × ValidatorContext :=
  if options.length > 0 then
    (some (.generic "Validator 'not_empty' does not support any arguments."), context)
  else
    match context.Value with
    | .str s =>
      if context.IsNil ∨ goLen s = 0 then
        (some (.generic "{field} cannot be empty."), context)
      else (none, context)
    | .i64 n =>
      if context.IsNil ∨ n = 0 then
        (some (.generic "{field} cannot be empty."), context)
      else (none, context)
    | .f64 q =>
      if context.IsNil ∨ q = 0 then
        (some (.generic "{field} cannot be empty."), context)
      else (none, context)
    | _ =>
      if context.IsNil then
        (some (.generic "{field} cannot be empty."), context)
      else
        (some (.unsupportedType (NewUnsupportedTypeError "not_empty" context.Value)),
          context)

/-- `IsMin`: validator `min`.  The arity check `len(options) != 1` is taken
first; the single option is then parsed with `strconv.Atoi`. -/
def IsMin (context : ValidatorContext) (options : List String) :
    Option GoError × ValidatorContext :=
  match options with
  | [o] =>
    match goAtoi o with
    | none => (some (.generic "Unable to parse 'min' validator value."), context)
    | some minValue =>
      match context.Value with
      | .str s =>
        if context.IsNil ∨ (goLen s : Int) < minValue then
          (some (.generic ("{field} cannot be shorter than " ++ toString minValue ++
            " characters.")), context)
        else (none, context)
      | .i64 n =>
        if context.IsNil ∨ n < minValue then
          (some (.generic ("{field} cannot be less than " ++ toString minValue ++ ".")),
            context)
        else (none, context)
      | .f64 q =>
        if context.IsNil ∨ q < (minValue : ℚ) then
          (some (.generic ("{field} cannot be less than " ++ toString minValue ++ ".")),
            context)
        else (none, context)
      | .other _ =>
        (some (.unsupportedType (NewUnsupportedTypeError "min" context.Value)), context)
  | _ => (some (.generic "Validator 'min' requires a single argument."), context)

/-- `IsMax`: validator `max`.  The source names the parsed bound `minValue`
as well; the conditions are negated relative to `IsMin` (`!IsNil && v > bound`),
so a nil context always passes. -/
def IsMax (context : ValidatorContext) (options : List String) :
    Option GoError × ValidatorContext :=
  match options with
  | [o] =>
    match goAtoi o with
    | none => (some (.generic "Unable to parse 'max' validator value."), context)
    | some minValue =>
      match context.Value with
      | .str s =>
        if ¬context.IsNil ∧ (goLen s : Int) > minValue then
          (some (.generic ("{field} is longer than " ++ toString minValue ++
            " characters.")), context)
        else (none, context)
      | .i64 n =>
        if ¬context.IsNil ∧ n > minValue then
          (some (.generic ("{field} cannot be greater than " ++ toString minValue ++ ".")),
            context)
        else (none, context)
      | .f64 q =>
        if ¬context.IsNil ∧ q > (minValue : ℚ) then
          (some (.generic ("{field} cannot be greater than " ++ toString minValue ++ ".")),
            context)
        else (none, context)
      | .other _ =>
        (some (.unsupportedType (NewUnsupportedTypeError "max" context.Value)), context)
  | _ => (some (.generic "Validator 'max' requires a single argument."), context)

/-- `IsLowerCase`: validator `lowercase`.  `unicode.IsLetter` / `IsLower` are
modelled on the ASCII range by `Char.isAlpha` / `Char.isLower` (the claims
never exercise non-ASCII letters); the source returns the error at the first
offending rune, which is equivalent to the existence test used here. -/
def IsLowerCase (context : ValidatorContext) (options : List String) :
    Option GoError × ValidatorContext :=
  if options.length > 0 then
    (some (.generic "Validator 'lowercase' does not support any arguments."), context)
  else
    match context.Value with
    | .str s =>
      if context.IsNil ∨ goLen s = 0 then (none, context)
      else if s.toList.any fun c => c.isAlpha && !c.isLower then
        (some (.generic "{field} must be in lower case."), context)
      else (none, context)
    | _ =>
      (some (.unsupportedType (NewUnsupportedTypeError "lowercase" context.Value)),
        context)

/-- `IsUpperCase`: validator `uppercase`, symmetric to `IsLowerCase`. -/
def IsUpperCase (context : ValidatorContext) (options : List String) :
    Option GoError × ValidatorContext :=
  if options.length > 0 then
    (some (.generic "Validator 'uppercase' does not support any arguments."), context)
  else
    match context.Value with
    | .str s =>
      if context.IsNil ∨ goLen s = 0 then (none, context)
      else if s.toList.any fun c => c.isAlpha && !c.isUpper then
        (some (.generic "{field} must be in upper case."), context)
      else (none, context)
    | _ =>
      (some (.unsupportedType (NewUnsupportedTypeError "uppercase" context.Value)),
        context)

/-- `IsNumeric`: validator `numeric`.  On a successful
`strconv.ParseInt(s, 10, 32)` the source writes the parsed `int64` back into
`context.Value`. -/
def IsNumeric (context : ValidatorContext) (options : List String) :
    Option GoError × ValidatorContext :=
  if options.length > 0 then
    (some (.generic "Validator 'numeric' does not support any arguments."), context)
  else
    match context.Value with
    | .str s =>
      if context.IsNil ∨ goLen s = 0 then
        (some (.generic "{field} must be numeric."), context)
      else
        match parseInt32 s with
        | none => (some (.generic "{field} must contain numbers only."), context)
        | some value => (none, { context with Value := .i64 value })
    | _ =>
      (some (.unsupportedType (NewUnsupportedTypeError "numeric" context.Value)),
        context)

/-! ### Reflective field walker (`core/reflection.go`) -/

/-- Modelled from the spec: `TagGroup` is produced by the external tag
parser, whose source is not part of the core; the spec's Directive model is
a (validator name, ordered option list) pair, and `GetStructFields` treats
the parsed groups as opaque data. -/
structure TagGroup where
  name : String
  options : List String
  deriving DecidableEq, Repr

/-- One declared field of a Go struct as seen by reflection: its name, its
struct tag (a key/value association), and its current value. -/
structure GoStructField where
  name : String
  tag : List (String × String)
  value : GoValue
  deriving DecidableEq, Repr

/-- `reflect.StructTag.Get`: the value stored under `key`, or the empty
string when the key is absent. -/
def tagGet (tag : List (String × String)) (key : String) : String :=
  match tag.find? fun p => p.1 == key with
  | some p => p.2
  | none => ""

/-- `unicode.IsUpper(rune(name[0]))` on a struct field name (field names are
nonempty; `IsUpper` is modelled on the ASCII range by `Char.isUpper`). -/
def firstCharIsUpper (s : String) : Bool :=
  match s.toList with
  | [] => false
  | c :: _ => c.isUpper

/-- `ReflectedField`: name, value, parsed tag groups, and a parent pointer
(nil for root fields) used only to build the dotted path. -/
inductive ReflectedField where
  | mk (Parent : Option ReflectedField) (Name : String) (Value : GoValue)
      (TagGroups : List TagGroup)

def ReflectedField.Parent : ReflectedField → Option ReflectedField
  | .mk p _ _ _ => p

def ReflectedField.Name : ReflectedField → String
  | .mk _ n _ _ => n

def ReflectedField.Value : ReflectedField → GoValue
  | .mk _ _ v _ => v

def ReflectedField.TagGroups : ReflectedField → List TagGroup
  | .mk _ _ _ t => t

/-- `strings.Join`. -/
def goJoin (sep : String) : List String → String
  | [] => ""
  | [x] => x
  | x :: xs => x ++ sep ++ goJoin sep xs

/-- The `for parent != nil` loop of `FullName`: walking outward from the
immediate parent, each non-empty parent name is prepended with a dot. -/
def fullNameLoop : Option ReflectedField → String → String
  | none, acc => acc
  | some (.mk parent name _ _), acc =>
    fullNameLoop parent (if name.length > 0 then name ++ "." ++ acc else acc)

/-- `ReflectedField.FullName(postfix...)`. -/
def ReflectedField.FullName (f : ReflectedField) (suffixes : List String) : String :=
  let fullName := fullNameLoop f.Parent f.Name
  if suffixes.length > 0 then
    (if fullName.length > 0 then fullName ++ "." else fullName) ++ goJoin "." suffixes
  else fullName

/-- `GetStructFields(value, tagName)`: walks the declared fields in order,
considers only those whose name starts with an uppercase character, parses
each considered field's tag with the external parser (passed here as a
function, since its source is outside the core), and returns either the
built list with no error or — as soon as any parse fails — a nil list with
that error.  The Go signature `([]*ReflectedField, error)` is modelled as a
pair of the (possibly nil, i.e. empty) list and the optional error. -/
def GetStructFields (parseTag : String → Except String (List TagGroup))
    (tagName : String) : List GoStructField → List ReflectedField × Option String
  | [] => ([], none)
  | field :: rest =>
    if firstCharIsUpper field.name then
      match parseTag (tagGet field.tag tagName) with
      | .error e => ([], some e)
      | .ok tagGroups =>
        match GetStructFields parseTag tagName rest with
        | (_, some e) => ([], some e)
        | (fields, none) => (.mk none field.name field.value tagGroups :: fields, none)
    else GetStructFields parseTag tagName rest

/-! ### Dynamic method invocation (`CallDynamicMethod`) -/

/-- A declared parameter type of a method: either interface-kind (accepts
any argument) or a concrete type that must equal the argument's runtime
type exactly. -/
inductive ParamType where
  | iface
  | concrete (typeName : String)
  deriving DecidableEq, Repr

/-- A method reachable by name: its parameter types (receiver excluded, as
in a bound method value) and its behaviour on an argument list. -/
structure GoMethod where
  params : List ParamType
  impl : List GoValue → List GoValue

/-- The method sets of a target's type `T`: the methods resolvable on the
value form (`reflect.Value` of `T`) and on the reference form (`*T`).  Go
guarantees the `*T` method set contains the `T` method set; theorems take
that inclusion as a hypothesis. -/
structure GoType where
  valueMethods : List (String × GoMethod)
  ptrMethods : List (String × GoMethod)

/-- The error outcomes of `CallDynamicMethod`. -/
inductive CallError where
  | invalidMethod
  | inputParameterMismatch
  | unhandledCall
  deriving DecidableEq, Repr

/-- Whether an argument passes the per-parameter check
`inputType.Kind() != Interface && reflect.TypeOf(arg) != inputType`. -/
def argMatches (p : ParamType) (arg : GoValue) : Bool :=
  match p with
  | .iface => true
  | .concrete t => goTypeOf arg == some t

/-- `CallDynamicMethod(i, methodName, args...)`.  The source first sets
`finalMethod` from the value-form lookup, then overwrites it from the
reference-form lookup when that is valid and otherwise returns
`InvalidMethodError`; so the value-form lookup never determines the method
actually invoked, and the trailing `UnhandledCallError` return is
unreachable (`finalMethod` was just assigned a valid method). -/
def CallDynamicMethod (t : GoType) (methodName : String) (args : List GoValue) :
    Except CallError (List GoValue) :=
  let _ := List.lookup methodName t.valueMethods
  match List.lookup methodName t.ptrMethods with
  | none => .error .invalidMethod
  | some finalMethod =>
    if args.length ≠ finalMethod.params.length then
      .error .inputParameterMismatch
    else if (finalMethod.params.zip args).all fun pa => argMatches pa.1 pa.2 then
      .ok (finalMethod.impl args)
    else .error .inputParameterMismatch

/-! ### Helper lemmas -/

theorem goLen_ne_zero {s : String} (h : s ≠ "") : goLen s ≠ 0 := by
  obtain ⟨data⟩ := s
  cases data with
  | nil => exact absurd rfl h
  | cons c cs =>
    have hp := Char.utf8Size_pos c
    simp only [goLen, String.utf8ByteSize, String.utf8ByteSize.go]
    omega

theorem goLen_empty : goLen "" = 0 := rfl

/-- The value kinds supported by `min` / `max` (the non-default arms of
their type switches). -/
def supportedMinMax : GoValue → Bool
  | .str _ => true
  | .i64 _ => true
  | .f64 _ => true
  | .other _ => false

/-! ### Claims about the built-in validators -/

/-- C1: for `numeric` with no options on a string value, a nil context or an
empty string yields the "must be numeric" error with `Value` unchanged; a
string that fails the base-10 32-bit-range parse yields the "numbers only"
error with `Value` unchanged; a successful parse returns no error and
mutates `Value` to the parsed `int64`, so a later validator on the same
context dispatches on the integer. -/
theorem numeric_coerces_value (s : String) (isNil stop : Bool) :
    ((isNil = true ∨ s = "") →
      IsNumeric ⟨.str s, isNil, stop⟩ [] =
        (some (.generic "{field} must be numeric."), ⟨.str s, isNil, stop⟩)) ∧
    (isNil = false → s ≠ "" → parseInt32 s = none →
      IsNumeric ⟨.str s, isNil, stop⟩ [] =
        (some (.generic "{field} must contain numbers only."), ⟨.str s, isNil, stop⟩)) ∧
    (∀ v : Int, isNil = false → parseInt32 s = some v →
      IsNumeric ⟨.str s, isNil, stop⟩ [] = (none, ⟨.i64 v, isNil, stop⟩)) := by
  refine ⟨?_, ?_, ?_⟩
  · rintro (h | h)
    · subst h; simp [IsNumeric]
    · subst h; simp [IsNumeric, goLen_empty]
  · intro hnil hne hp
    subst hnil
    simp [IsNumeric, goLen_ne_zero hne, hp]
  · intro v hnil hp
    subst hnil
    have hne : s ≠ "" := by
      rintro rfl
      rw [show parseInt32 "" = none from rfl] at hp
      exact Option.noConfusion hp
    simp [IsNumeric, goLen_ne_zero hne, hp]

theorem numeric_coerces_value_w :
    IsNumeric ⟨.str "123", false, false⟩ [] = (none, ⟨.i64 123, false, false⟩) :=
  (numeric_coerces_value "123" false false).2.2 123 rfl (by decide)

/-- C2: for `empty` with no options, an empty string, a zero `int64`, or a
nil context (any value type) sets `StopValidate` and returns no error; a
non-empty string or non-zero `int64` on a non-nil context leaves
`StopValidate` unchanged and returns no error; any other value type on a
non-nil context yields the unsupported-type error. -/
theorem empty_sets_stop_flag (ctx : ValidatorContext) :
    ((ctx.Value = .str "" ∨ ctx.Value = .i64 0 ∨ ctx.IsNil = true) →
      IsEmpty ctx [] = (none, { ctx with StopValidate := true })) ∧
    (∀ s, ctx.Value = .str s → s ≠ "" → ctx.IsNil = false →
      IsEmpty ctx [] = (none, ctx)) ∧
    (∀ n : Int, ctx.Value = .i64 n → n ≠ 0 → ctx.IsNil = false →
      IsEmpty ctx [] = (none, ctx)) ∧
    (ctx.IsNil = false → (∀ s, ctx.Value ≠ .str s) → (∀ n : Int, ctx.Value ≠ .i64 n) →
      IsEmpty ctx [] =
        (some (.unsupportedType (NewUnsupportedTypeError "empty" ctx.Value)), ctx)) := by
  obtain ⟨v, isNil, stop⟩ := ctx
  refine ⟨?_, ?_, ?_, ?_⟩
  · rintro (h | h | h)
    · simp only at h; subst h; simp [IsEmpty, goLen_empty]
    · simp only at h; subst h; simp [IsEmpty]
    · simp only at h; subst h; cases v <;> simp [IsEmpty]
  · intro s hv hs hnil
    simp only at hv hnil; subst hv; subst hnil
    simp [IsEmpty, goLen_ne_zero hs]
  · intro n hv hn hnil
    simp only at hv hnil; subst hv; subst hnil
    simp [IsEmpty, hn]
  · intro hnil hs hn
    simp only at hnil hs hn; subst hnil
    cases v with
    | str s => exact absurd rfl (hs s)
    | i64 n => exact absurd rfl (hn n)
    | f64 q => simp [IsEmpty]
    | other t => simp [IsEmpty]

theorem empty_sets_stop_flag_w :
    IsEmpty ⟨.str "", false, false⟩ [] = (none, ⟨.str "", false, true⟩) :=
  (empty_sets_stop_flag ⟨.str "", false, false⟩).1 (Or.inl rfl)

/-- C3: for `max` with one integer-parsable option, every nil context whose
value has a supported type passes regardless of the threshold, while `min`
under the same conditions returns a value-validation error. -/
theorem max_nil_passes_min_nil_errors (v : GoValue) (stop : Bool) (o : String) (m : Int)
    (hp : goAtoi o = some m) (hs : supportedMinMax v = true) :
    IsMax ⟨v, true, stop⟩ [o] = (none, ⟨v, true, stop⟩) ∧
    ∃ msg, IsMin ⟨v, true, stop⟩ [o] = (some (.generic msg), ⟨v, true, stop⟩) := by
  cases v with
  | str s =>
    exact ⟨by simp [IsMax, hp],
      "{field} cannot be shorter than " ++ toString m ++ " characters.",
      by simp [IsMin, hp]⟩
  | i64 n =>
    exact ⟨by simp [IsMax, hp],
      "{field} cannot be less than " ++ toString m ++ ".", by simp [IsMin, hp]⟩
  | f64 q =>
    exact ⟨by simp [IsMax, hp],
      "{field} cannot be less than " ++ toString m ++ ".", by simp [IsMin, hp]⟩
  | other t => exact absurd hs (by simp [supportedMinMax])

theorem max_nil_passes_min_nil_errors_w :
    IsMax ⟨.str "abcd", true, false⟩ ["3"] = (none, ⟨.str "abcd", true, false⟩) :=
  (max_nil_passes_min_nil_errors (.str "abcd") false "3" 3 (by decide) rfl).1

/-- C4: every built-in validator called with the wrong number of options
returns its fixed configuration error and the context untouched, for every
context whatsoever. -/
theorem arity_error_ignores_context (ctx : ValidatorContext) (options : List String) :
    (options ≠ [] →
      IsEmpty ctx options =
        (some (.generic "Validator 'empty' does not support any arguments."), ctx) ∧
      IsNotEmpty ctx options =
        (some (.generic "Validator 'not_empty' does not support any arguments."), ctx) ∧
      IsLowerCase ctx options =
        (some (.generic "Validator 'lowercase' does not support any arguments."), ctx) ∧
      IsUpperCase ctx options =
        (some (.generic "Validator 'uppercase' does not support any arguments."), ctx) ∧
      IsNumeric ctx options =
        (some (.generic "Validator 'numeric' does not support any arguments."), ctx)) ∧
    (options.length ≠ 1 →
      IsMin ctx options =
        (some (.generic "Validator 'min' requires a single argument."), ctx) ∧
      IsMax ctx options =
        (some (.generic "Validator 'max' requires a single argument."), ctx)) := by
  constructor
  · intro h
    have hlen : 0 < options.length := by
      cases options with
      | nil => exact absurd rfl h
      | cons a t => simp
    exact ⟨by simp [IsEmpty, hlen], by simp [IsNotEmpty, hlen], by simp [IsLowerCase, hlen],
      by simp [IsUpperCase, hlen], by simp [IsNumeric, hlen]⟩
  · intro h
    cases options with
    | nil => exact ⟨by simp [IsMin], by simp [IsMax]⟩
    | cons a t =>
      cases t with
      | nil => exact absurd rfl h
      | cons b t2 => exact ⟨by simp [IsMin], by simp [IsMax]⟩

theorem arity_error_ignores_context_w :
    IsEmpty ⟨.other (some "[]int"), false, false⟩ ["a", "b"] =
      (some (.generic "Validator 'empty' does not support any arguments."),
        ⟨.other (some "[]int"), false, false⟩) ∧
    IsMin ⟨.other (some "[]int"), false, false⟩ ["a", "b"] =
      (some (.generic "Validator 'min' requires a single argument."),
        ⟨.other (some "[]int"), false, false⟩) :=
  ⟨((arity_error_ignores_context ⟨.other (some "[]int"), false, false⟩ ["a", "b"]).1
      (by decide)).1,
    ((arity_error_ignores_context ⟨.other (some "[]int"), false, false⟩ ["a", "b"]).2
      (by decide)).1⟩

/-- C5: for `min` / `max` with exactly one option that does not parse as an
integer, the argument-format error is returned for every context, including
values of unsupported types. -/
theorem minmax_format_error_precedence (ctx : ValidatorContext) (o : String)
    (h : goAtoi o = none) :
    IsMin ctx [o] = (some (.generic "Unable to parse 'min' validator value."), ctx) ∧
    IsMax ctx [o] = (some (.generic "Unable to parse 'max' validator value."), ctx) :=
  ⟨by simp [IsMin, h], by simp [IsMax, h]⟩

theorem minmax_format_error_precedence_w :
    IsMin ⟨.other (some "[]int"), false, false⟩ ["x"] =
      (some (.generic "Unable to parse 'min' validator value."),
        ⟨.other (some "[]int"), false, false⟩) :=
  (minmax_format_error_precedence ⟨.other (some "[]int"), false, false⟩ "x" (by decide)).1

/-! ### Shape of the unsupported-type errors -/

theorem isEmpty_unsupported_shape (ctx : ValidatorContext) (options : List String)
    (e : UnsupportedTypeError) (c' : ValidatorContext)
    (h : IsEmpty ctx options = (some (.unsupportedType e), c')) :
    e = NewUnsupportedTypeError "empty" ctx.Value := by
  unfold IsEmpty at h
  repeat' split at h
  all_goals simp_all
  all_goals obtain ⟨h1, h2⟩ := h
  all_goals subst h2
  all_goals exact h1.symm

theorem isNotEmpty_unsupported_shape (ctx : ValidatorContext) (options : List String)
    (e : UnsupportedTypeError) (c' : ValidatorContext)
    (h : IsNotEmpty ctx options = (some (.unsupportedType e), c')) :
    e = NewUnsupportedTypeError "not_empty" ctx.Value := by
  unfold IsNotEmpty at h
  repeat' split at h
  all_goals simp_all
  all_goals obtain ⟨h1, h2⟩ := h
  all_goals subst h2
  all_goals exact h1.symm

theorem isMin_unsupported_shape (ctx : ValidatorContext) (options : List String)
    (e : UnsupportedTypeError) (c' : ValidatorContext)
    (h : IsMin ctx options = (some (.unsupportedType e), c')) :
    e = NewUnsupportedTypeError "min" ctx.Value := by
  unfold IsMin at h
  repeat' split at h
  all_goals simp_all

theorem isMax_unsupported_shape (ctx : ValidatorContext) (options : List String)
    (e : UnsupportedTypeError) (c' : ValidatorContext)
    (h : IsMax ctx options = (some (.unsupportedType e), c')) :
    e = NewUnsupportedTypeError "max" ctx.Value := by
  unfold IsMax at h
  repeat' split at h
  all_goals simp_all

theorem isLowerCase_unsupported_shape (ctx : ValidatorContext) (options : List String)
    (e : UnsupportedTypeError) (c' : ValidatorContext)
    (h : IsLowerCase ctx options = (some (.unsupportedType e), c')) :
    e = NewUnsupportedTypeError "lowercase" ctx.Value := by
  unfold IsLowerCase at h
  repeat' split at h
  all_goals simp_all
  all_goals obtain ⟨h1, h2⟩ := h
  all_goals subst h2
  all_goals exact h1.symm

theorem isUpperCase_unsupported_shape (ctx : ValidatorContext) (options : List String)
    (e : UnsupportedTypeError) (c' : ValidatorContext)
    (h : IsUpperCase ctx options = (some (.unsupportedType e), c')) :
    e = NewUnsupportedTypeError "uppercase" ctx.Value := by
  unfold IsUpperCase at h
  repeat' split at h
  all_goals simp_all
  all_goals obtain ⟨h1, h2⟩ := h
  all_goals subst h2
  all_goals exact h1.symm

theorem isNumeric_unsupported_shape (ctx : ValidatorContext) (options : List String)
    (e : UnsupportedTypeError) (c' : ValidatorContext)
    (h : IsNumeric ctx options = (some (.unsupportedType e), c')) :
    e = NewUnsupportedTypeError "numeric" ctx.Value := by
  unfold IsNumeric at h
  repeat' split at h
  all_goals simp_all
  all_goals obtain ⟨h1, h2⟩ := h
  all_goals subst h2
  all_goals exact h1.symm

/-- C9: `NewUnsupportedTypeError` carries the value's concrete runtime type
(`reflect.TypeOf`) and a message naming the validator, and every
unsupported-type error any built-in validator returns is exactly
`NewUnsupportedTypeError` of that validator's name and the context value. -/
theorem unsupported_error_identifies_validator_and_type :
    (∀ (validatorName : String) (v : GoValue),
      (NewUnsupportedTypeError validatorName v).type = goTypeOf v ∧
      (NewUnsupportedTypeError validatorName v).message =
        "Validator with name '" ++ validatorName ++
          "' on struct '{struct}' and field '{field}' is not supported.") ∧
    (∀ (ctx : ValidatorContext) (options : List String) (e : UnsupportedTypeError)
        (c' : ValidatorContext),
      (IsEmpty ctx options = (some (.unsupportedType e), c') →
        e = NewUnsupportedTypeError "empty" ctx.Value) ∧
      (IsNotEmpty ctx options = (some (.unsupportedType e), c') →
        e = NewUnsupportedTypeError "not_empty" ctx.Value) ∧
      (IsMin ctx options = (some (.unsupportedType e), c') →
        e = NewUnsupportedTypeError "min" ctx.Value) ∧
      (IsMax ctx options = (some (.unsupportedType e), c') →
        e = NewUnsupportedTypeError "max" ctx.Value) ∧
      (IsLowerCase ctx options = (some (.unsupportedType e), c') →
        e = NewUnsupportedTypeError "lowercase" ctx.Value) ∧
      (IsUpperCase ctx options = (some (.unsupportedType e), c') →
        e = NewUnsupportedTypeError "uppercase" ctx.Value) ∧
      (IsNumeric ctx options = (some (.unsupportedType e), c') →
        e = NewUnsupportedTypeError "numeric" ctx.Value)) :=
  ⟨fun _ _ => ⟨rfl, rfl⟩,
    fun ctx options e c' =>
      ⟨isEmpty_unsupported_shape ctx options e c',
        isNotEmpty_unsupported_shape ctx options e c',
        isMin_unsupported_shape ctx options e c',
        isMax_unsupported_shape ctx options e c',
        isLowerCase_unsupported_shape ctx options e c',
        isUpperCase_unsupported_shape ctx options e c',
        isNumeric_unsupported_shape ctx options e c'⟩⟩

theorem unsupported_error_identifies_validator_and_type_w :
    NewUnsupportedTypeError "empty" (.other (some "[]int")) =
      NewUnsupportedTypeError "empty"
        (ValidatorContext.mk (.other (some "[]int")) false false).Value :=
  ((unsupported_error_identifies_validator_and_type.2
      ⟨.other (some "[]int"), false, false⟩ []
      (NewUnsupportedTypeError "empty" (.other (some "[]int")))
      ⟨.other (some "[]int"), false, false⟩).1 (by decide))

/-- C10: of the seven built-in validators only `empty` writes the
`StopValidate` flag — the other six return it unchanged on every input —
and `empty` never clears an already-set flag. -/
theorem only_empty_writes_stop_flag (ctx : ValidatorContext) (options : List String) :
    (IsNotEmpty ctx options).2.StopValidate = ctx.StopValidate ∧
    (IsMin ctx options).2.StopValidate = ctx.StopValidate ∧
    (IsMax ctx options).2.StopValidate = ctx.StopValidate ∧
    (IsLowerCase ctx options).2.StopValidate = ctx.StopValidate ∧
    (IsUpperCase ctx options).2.StopValidate = ctx.StopValidate ∧
    (IsNumeric ctx options).2.StopValidate = ctx.StopValidate ∧
    (ctx.StopValidate = true → (IsEmpty ctx options).2.StopValidate = true) := by
  obtain ⟨v, isNil, stop⟩ := ctx
  refine ⟨?_, ?_, ?_, ?_, ?_, ?_, ?_⟩
  · unfold IsNotEmpty
    repeat' split
    all_goals rfl
  · unfold IsMin
    repeat' split
    all_goals rfl
  · unfold IsMax
    repeat' split
    all_goals rfl
  · unfold IsLowerCase
    repeat' split
    all_goals rfl
  · unfold IsUpperCase
    repeat' split
    all_goals rfl
  · unfold IsNumeric
    repeat' split
    all_goals rfl
  · intro h
    simp only at h
    subst h
    unfold IsEmpty
    repeat' split
    all_goals rfl

theorem only_empty_writes_stop_flag_w :
    (IsEmpty ⟨.str "x", false, true⟩ []).2.StopValidate = true :=
  (only_empty_writes_stop_flag ⟨.str "x", false, true⟩ []).2.2.2.2.2.2 rfl

/-! ### Claims about the field walker -/

theorem getStructFields_ok_names (pt : String → Except String (List TagGroup))
    (tn : String) :
    ∀ (fields : List GoStructField) (out : List ReflectedField),
      GetStructFields pt tn fields = (out, none) →
      out.map ReflectedField.Name =
        (fields.filter fun f => firstCharIsUpper f.name).map GoStructField.name ∧
      out.map ReflectedField.Value =
        (fields.filter fun f => firstCharIsUpper f.name).map GoStructField.value := by
  intro fields
  induction fields with
  | nil =>
    intro out h
    simp [GetStructFields] at h
    simp [h]
  | cons f rest ih =>
    intro out h
    by_cases hc : firstCharIsUpper f.name
    · simp only [GetStructFields, hc, if_pos] at h
      cases hpt : pt (tagGet f.tag tn) with
      | error e => rw [hpt] at h; simp at h
      | ok gs =>
        rw [hpt] at h
        rcases hrec : GetStructFields pt tn rest with ⟨fs, oe⟩
        rw [hrec] at h
        cases oe with
        | some e => simp at h
        | none =>
          simp only [Prod.mk.injEq, and_true] at h
          subst h
          obtain ⟨h1, h2⟩ := ih fs hrec
          simp [List.filter_cons, hc, ReflectedField.Name, ReflectedField.Value, h1, h2]
    · simp only [GetStructFields, hc] at h
      obtain ⟨h1, h2⟩ := ih out (by simpa using h)
      simp [List.filter_cons, hc, h1, h2]

theorem getStructFields_error_source (pt : String → Except String (List TagGroup))
    (tn : String) :
    ∀ (fields : List GoStructField) (out : List ReflectedField) (e : String),
      GetStructFields pt tn fields = (out, some e) →
      out = [] ∧ ∃ f ∈ fields, firstCharIsUpper f.name = true ∧
        pt (tagGet f.tag tn) = .error e := by
  intro fields
  induction fields with
  | nil => intro out e h; simp [GetStructFields] at h
  | cons f rest ih =>
    intro out e h
    by_cases hc : firstCharIsUpper f.name
    · simp only [GetStructFields, hc, if_pos] at h
      cases hpt : pt (tagGet f.tag tn) with
      | error e2 =>
        rw [hpt] at h
        simp only [Prod.mk.injEq, Option.some.injEq] at h
        obtain ⟨h1, h2⟩ := h
        exact ⟨h1.symm, f, by simp, hc, by rw [hpt, h2]⟩
      | ok gs =>
        rw [hpt] at h
        rcases hrec : GetStructFields pt tn rest with ⟨fs, oe⟩
        rw [hrec] at h
        cases oe with
        | some e2 =>
          simp only [Prod.mk.injEq, Option.some.injEq] at h
          obtain ⟨h1, h2⟩ := h
          obtain ⟨-, g, hg, hup, hge⟩ := ih fs e2 hrec
          exact ⟨h1.symm, g, List.mem_cons_of_mem f hg, hup, by rw [hge, h2]⟩
        | none => simp at h
    · simp only [GetStructFields, hc] at h
      obtain ⟨h1, g, hg, hup, hge⟩ := ih out e (by simpa using h)
      exact ⟨h1, g, List.mem_cons_of_mem f hg, hup, hge⟩

theorem getStructFields_error_total (pt : String → Except String (List TagGroup))
    (tn : String) :
    ∀ fields : List GoStructField,
      (∃ f ∈ fields, firstCharIsUpper f.name = true ∧
        ∃ er, pt (tagGet f.tag tn) = .error er) →
      ∃ e, GetStructFields pt tn fields = ([], some e) := by
  intro fields
  induction fields with
  | nil => rintro ⟨g, hg, -⟩; exact absurd hg (List.not_mem_nil g)
  | cons f rest ih =>
    rintro ⟨g, hg, hup, er, her⟩
    rcases List.mem_cons.1 hg with rfl | hg'
    · have hc : firstCharIsUpper g.name = true := hup
      exact ⟨er, by simp [GetStructFields, hc, her]⟩
    · by_cases hc : firstCharIsUpper f.name
      · cases hpt : pt (tagGet f.tag tn) with
        | error e2 => exact ⟨e2, by simp [GetStructFields, hc, hpt]⟩
        | ok gs =>
          obtain ⟨e, he⟩ := ih ⟨g, hg', hup, er, her⟩
          exact ⟨e, by simp [GetStructFields, hc, hpt, he]⟩
      · obtain ⟨e, he⟩ := ih ⟨g, hg', hup, er, her⟩
        exact ⟨e, by simp [GetStructFields, hc, he]⟩

/-- C6: `GetStructFields` yields a descriptor for exactly the fields whose
name begins with an uppercase character, in declaration order, skipping the
rest; and whenever the tag parser fails on a considered field it returns the
parse error with a nil field list, never a partial list. -/
theorem getStructFields_exported_only_and_fail_whole_walk
    (pt : String → Except String (List TagGroup)) (tagName : String)
    (fields : List GoStructField) :
    (∀ out, GetStructFields pt tagName fields = (out, none) →
      out.map ReflectedField.Name =
        (fields.filter fun f => firstCharIsUpper f.name).map GoStructField.name ∧
      out.map ReflectedField.Value =
        (fields.filter fun f => firstCharIsUpper f.name).map GoStructField.value) ∧
    (∀ out e, GetStructFields pt tagName fields = (out, some e) →
      out = [] ∧ ∃ f ∈ fields, firstCharIsUpper f.name = true ∧
        pt (tagGet f.tag tagName) = .error e) ∧
    ((∃ f ∈ fields, firstCharIsUpper f.name = true ∧
        ∃ er, pt (tagGet f.tag tagName) = .error er) →
      ∃ e, GetStructFields pt tagName fields = ([], some e)) :=
  ⟨getStructFields_ok_names pt tagName fields,
    getStructFields_error_source pt tagName fields,
    getStructFields_error_total pt tagName fields⟩

theorem getStructFields_exported_only_and_fail_whole_walk_w :
    List.map ReflectedField.Name [ReflectedField.mk none "Name" (GoValue.str "x") []] =
      List.map GoStructField.name
        (List.filter (fun f => firstCharIsUpper f.name)
          [⟨"Name", [], GoValue.str "x"⟩, ⟨"age", [], GoValue.i64 3⟩]) ∧
    List.map ReflectedField.Value [ReflectedField.mk none "Name" (GoValue.str "x") []] =
      List.map GoStructField.value
        (List.filter (fun f => firstCharIsUpper f.name)
          [⟨"Name", [], GoValue.str "x"⟩, ⟨"age", [], GoValue.i64 3⟩]) :=
  (getStructFields_exported_only_and_fail_whole_walk (fun _ => .ok []) "validate"
      [⟨"Name", [], GoValue.str "x"⟩, ⟨"age", [], GoValue.i64 3⟩]).1
    [ReflectedField.mk none "Name" (GoValue.str "x") []] rfl

/-! ### The dotted-path invariant of `FullName` -/

/-- Dot-joining a list of path segments. -/
def dotJoined : List String → String
  | [] => ""
  | [x] => x
  | x :: xs => x ++ "." ++ dotJoined xs

/-- Each segment followed by a trailing dot, concatenated. -/
def dottedConcat (l : List String) : String :=
  l.foldr (fun n r => n ++ "." ++ r) ""

/-- Whether a path segment is non-empty. -/
def keepNonEmpty (s : String) : Bool := s ≠ ""

/-- The names of the ancestors reachable through a parent pointer, outermost
first. -/
def ancestorsOuterFirst : Option ReflectedField → List String
  | none => []
  | some (.mk parent name _ _) => ancestorsOuterFirst parent ++ [name]

/-- Modelled from the spec: `FullName` "returns the dot-joined chain of the
non-empty ancestor names (outermost first) followed by the field's own name,
with any postfix segments appended dot-separated at the end". -/
def specFullName (f : ReflectedField) (suffixes : List String) : String :=
  let base :=
    dotJoined (((ancestorsOuterFirst f.Parent).filter keepNonEmpty) ++ [f.Name])
  if suffixes = [] then base
  else if base = "" then dotJoined suffixes
  else base ++ "." ++ dotJoined suffixes

theorem strLength_pos {s : String} (h : s ≠ "") : 0 < s.length := by
  obtain ⟨d⟩ := s
  cases d with
  | nil => exact absurd rfl h
  | cons c cs => simp [String.length]

theorem dottedConcat_append (a b : List String) :
    dottedConcat (a ++ b) = dottedConcat a ++ dottedConcat b := by
  induction a with
  | nil => simp [dottedConcat]
  | cons x xs ih =>
    simp only [List.cons_append, dottedConcat, List.foldr_cons] at *
    rw [ih]
    simp [String.append_assoc]

theorem dotJoined_append_singleton :
    ∀ (l : List String) (a : String), dotJoined (l ++ [a]) = dottedConcat l ++ a
  | [], a => by simp [dotJoined, dottedConcat]
  | [x], a => by simp [dotJoined, dottedConcat, String.append_assoc]
  | x :: y :: ys, a => by
    have ih := dotJoined_append_singleton (y :: ys) a
    simp only [List.cons_append] at ih ⊢
    calc dotJoined (x :: y :: (ys ++ [a]))
        = x ++ "." ++ dotJoined (y :: (ys ++ [a])) := rfl
      _ = x ++ "." ++ (dottedConcat (y :: ys) ++ a) := by rw [ih]
      _ = x ++ "." ++ dottedConcat (y :: ys) ++ a := by simp [String.append_assoc]
      _ = dottedConcat (x :: y :: ys) ++ a := rfl

theorem goJoin_dot : ∀ l : List String, goJoin "." l = dotJoined l
  | [] => rfl
  | [_] => rfl
  | x :: y :: ys => by
    rw [show goJoin "." (x :: y :: ys) = x ++ "." ++ goJoin "." (y :: ys) from rfl,
      show dotJoined (x :: y :: ys) = x ++ "." ++ dotJoined (y :: ys) from rfl,
      goJoin_dot (y :: ys)]

theorem fullNameLoop_eq : ∀ (op : Option ReflectedField) (acc : String),
    fullNameLoop op acc =
      dottedConcat ((ancestorsOuterFirst op).filter keepNonEmpty) ++ acc
  | none, acc => by simp [fullNameLoop, ancestorsOuterFirst, dottedConcat]
  | some (.mk parent name v tg), acc => by
    simp only [fullNameLoop]
    rw [fullNameLoop_eq parent _]
    simp only [ancestorsOuterFirst]
    rw [List.filter_append]
    by_cases hn : name = ""
    · subst hn
      rw [show List.filter keepNonEmpty [""] = [] from rfl, List.append_nil]
      rw [if_neg (by decide : ¬ 0 < String.length "")]
    · have h1 : List.filter keepNonEmpty [name] = [name] := by
        simp [keepNonEmpty, hn]
      rw [h1, if_pos (strLength_pos hn), dottedConcat_append]
      rw [show dottedConcat [name] = name ++ "." ++ "" from rfl, String.append_empty]
      simp [String.append_assoc]

/-- C7: `FullName(postfix...)` is the dot-joined chain of the non-empty
ancestor names (outermost first) followed by the field's own name, with the
postfix segments appended dot-separated at the end; in particular a field
`Inner` under a parent `Outer` yields `"Outer.Inner"`. -/
theorem fullName_is_dotted_path :
    (∀ (f : ReflectedField) (suffixes : List String),
      ReflectedField.FullName f suffixes = specFullName f suffixes) ∧
    ReflectedField.FullName
      (.mk (some (.mk none "Outer" (.i64 0) [])) "Inner" (.i64 0) []) [] =
      "Outer.Inner" := by
  constructor
  · intro f suffixes
    obtain ⟨p, name, v, tg⟩ := f
    simp only [ReflectedField.FullName, specFullName, ReflectedField.Parent,
      ReflectedField.Name]
    rw [fullNameLoop_eq, ← dotJoined_append_singleton]
    cases suffixes with
    | nil => simp
    | cons a t =>
      rw [goJoin_dot]
      generalize dotJoined (List.filter keepNonEmpty (ancestorsOuterFirst p) ++ [name]) = B
      rw [if_neg (by simp : ¬(a :: t : List String) = [])]
      rw [if_pos (by simp : 0 < (a :: t : List String).length)]
      by_cases hb : B = ""
      · subst hb
        rw [if_neg (by decide : ¬ 0 < String.length ""), if_pos rfl, String.empty_append]
      · rw [if_pos (strLength_pos hb), if_neg hb]
  · simp only [ReflectedField.FullName, ReflectedField.Parent, ReflectedField.Name,
      fullNameLoop]
    decide

/-! ### Dynamic method invocation resolution -/

/-- C8: `CallDynamicMethod` returns `InvalidMethodError` exactly when the
name resolves on neither the value form nor the reference form (given Go's
guarantee that the reference form's method set contains the value form's),
and when both forms resolve it invokes the method found via the reference
form. -/
theorem callDynamicMethod_resolution (t : GoType) (methodName : String)
    (args : List GoValue)
    (hinc : ∀ m, List.lookup methodName t.valueMethods = some m →
      (List.lookup methodName t.ptrMethods).isSome = true) :
    (CallDynamicMethod t methodName args = .error .invalidMethod ↔
      List.lookup methodName t.valueMethods = none ∧
      List.lookup methodName t.ptrMethods = none) ∧
    (∀ mv mp, List.lookup methodName t.valueMethods = some mv →
      List.lookup methodName t.ptrMethods = some mp →
      args.length = mp.params.length →
      ((mp.params.zip args).all fun pa => argMatches pa.1 pa.2) = true →
      CallDynamicMethod t methodName args = .ok (mp.impl args)) := by
  constructor
  · constructor
    · intro h
      cases hp : List.lookup methodName t.ptrMethods with
      | none =>
        refine ⟨?_, rfl⟩
        cases hv : List.lookup methodName t.valueMethods with
        | none => rfl
        | some m =>
          have := hinc m hv
          rw [hp] at this
          exact absurd this (by simp)
      | some m =>
        exfalso
        simp only [CallDynamicMethod, hp] at h
        split at h
        · exact absurd h (by simp)
        · split at h
          · exact absurd h (by simp)
          · exact absurd h (by simp)
    · rintro ⟨hv, hp⟩
      simp [CallDynamicMethod, hp]
  · intro mv mp hv hp hlen hall
    simp [CallDynamicMethod, hp, hlen, hall]

theorem callDynamicMethod_resolution_w :
    CallDynamicMethod
      ⟨[("Foo", ⟨[], fun _ => [.i64 1]⟩)], [("Foo", ⟨[], fun _ => [.i64 2]⟩)]⟩
      "Foo" [] = .ok [.i64 2] :=
  (callDynamicMethod_resolution
      ⟨[("Foo", ⟨[], fun _ => [.i64 1]⟩)], [("Foo", ⟨[], fun _ => [.i64 2]⟩)]⟩
      "Foo" [] (fun _ _ => rfl)).2
    ⟨[], fun _ => [.i64 1]⟩ ⟨[], fun _ => [.i64 2]⟩ rfl rfl rfl rfl

end Cocoon
